import Mathlib

/-!
Shallow embedding of `src/farlo.py`: a scheduled price/stock monitor that
re-scrapes a fixed list of tracked listings and writes one row per item into
a tabular store.  Pure field extraction is modelled as functions on a `Page`
snapshot; the retry loop (`scrape_and_write`) and driver loop (`main`) are
modelled as functions producing an explicit trace of store writes, sleeps and
per-item outcomes.  Exceptions are modelled with `Except`.
-/

namespace Farlo

/-- `RETRIES = 3` (farlo.py line 16): attempts per SKU. -/
def RETRIES : Nat := 3

/-- `RETRY_DELAY = 5` (farlo.py line 17): seconds slept between attempts. -/
def RETRY_DELAY : Nat := 5

/-- Snapshot of the rendered page as the extraction code observes it:
each field is the inner text of the corresponding locator when the locator
count is positive (`none` models an absent element), and the list of
`select#quantity option` texts. -/
structure Page where
  titleText : Option String
  priceText : Option String
  sellerProfile : Option String
  merchantInfo : Option String
  quantityOpts : List String
  brandRow : Option String
  offersLink : Option String
deriving DecidableEq, Repr

/-- Python `str.strip()`: leading and trailing whitespace removed.
Implemented by structural recursion on the character list so that proofs
can evaluate it. -/
def strTrim (s : String) : String :=
  String.mk (((s.data.dropWhile Char.isWhitespace).reverse.dropWhile
    Char.isWhitespace).reverse)

/-- Python `str.upper()` (over the ASCII letters the source feeds it). -/
def strToUpper (s : String) : String :=
  String.mk (s.data.map Char.toUpper)

/-- Replace every non-overlapping occurrence of `pat` (nonempty in all
uses) by `repl`, left to right; `fuel` bounds the number of characters
consumed. -/
def replaceAux (pat repl : List Char) : Nat → List Char → List Char
  | 0, cs => cs
  | _, [] => []
  | fuel + 1, c :: cs =>
    if pat.isPrefixOf (c :: cs) then
      repl ++ replaceAux pat repl fuel ((c :: cs).drop pat.length)
    else c :: replaceAux pat repl fuel cs

/-- Python `s.replace(pat, repl)`. -/
def strReplace (s pat repl : String) : String :=
  String.mk (replaceAux pat.data repl.data s.data.length s.data)

/-- Suffix following the first occurrence of `pat` (nonempty in all uses),
`none` when `pat` does not occur. -/
def afterFirst (pat : List Char) : List Char → Option (List Char)
  | [] => none
  | c :: cs =>
    if pat.isPrefixOf (c :: cs) then some ((c :: cs).drop pat.length)
    else afterFirst pat cs

/-- Value of a digit-character run, `int` of the matched digits. -/
def digitsVal (ds : List Char) : Nat :=
  ds.foldl (fun n c => 10 * n + (c.toNat - 48)) 0

/-- First maximal digit run of `s`, as matched by `re.search(r"(\d+)", s)`;
`none` when `s` has no digit. -/
def firstDigitRunStr (s : String) : Option String :=
  let ds := (s.toList.dropWhile (fun c => ¬ c.isDigit)).takeWhile (fun c => c.isDigit)
  if ds.isEmpty then none else some (String.mk ds)

/-- First digit run of `s` parsed as a number (`int(m.group(1))`). -/
def firstDigitRunNat (s : String) : Option Nat :=
  (firstDigitRunStr s).map (fun t => digitsVal t.toList)

/-- Title extraction (farlo.py lines 47-48): trimmed `#productTitle` text,
or the literal `"N/A"` when the element is absent. -/
def titleOf (p : Page) : String :=
  match p.titleText with
  | some t => strTrim t
  | none => "N/A"

/-- Raw price text (farlo.py line 52): trimmed price-element text, or the
literal `"500"` when the element is absent. -/
def priceTxtOf (p : Page) : String :=
  match p.priceText with
  | some t => strTrim t
  | none => "500"

/-- Price value (farlo.py line 53): rupee glyph and commas removed, trimmed. -/
def priceValOf (p : Page) : String :=
  strTrim (strReplace (strReplace (priceTxtOf p) "₹" "") "," "")

/-- Capture of `re.search(r"Sold by\s+([^\.]+)", txt)` (farlo.py line 63),
stripped: text after the first `"Sold by"`, requiring at least one
whitespace character, capturing up to the next `'.'`. -/
def soldBySeller (txt : String) : Option String :=
  match afterFirst "Sold by".data txt.data with
  | none => none
  | some after =>
    let ws := after.takeWhile Char.isWhitespace
    if ws.isEmpty then none
    else
      let cap := (after.drop ws.length).takeWhile (fun c => c ≠ '.')
      if cap.isEmpty then none else some (strTrim (String.mk cap))

/-- Seller extraction (farlo.py lines 56-65): dedicated seller-profile
element if present, else the "Sold by …" capture from `#merchant-info`,
else `"Unknown"`. -/
def sellerOf (p : Page) : String :=
  match p.sellerProfile with
  | some t => strTrim t
  | none =>
    match p.merchantInfo with
    | some mtxt =>
      match soldBySeller (strTrim mtxt) with
      | some s => s
      | none => "Unknown"
    | none => "Unknown"

/-- Parsed quantity options (farlo.py line 69): first digit run of each
`select#quantity option` text. -/
def qtyNums (opts : List String) : List Nat :=
  opts.filterMap firstDigitRunNat

/-- Quantity extraction (farlo.py line 70):
`"30+" if nums and max(nums) >= 30 else str(max(nums)) if nums else "Unknown"`. -/
def qtyOf (opts : List String) : String :=
  let nums := qtyNums opts
  if nums.isEmpty then "Unknown"
  else if 30 ≤ nums.foldl Nat.max 0 then "30+"
  else toString (nums.foldl Nat.max 0)

/-- Combined seller/quantity field (farlo.py line 71), en-dash separated. -/
def sellerQtyOf (p : Page) : String :=
  sellerOf p ++ " – " ++ qtyOf p.quantityOpts

/-- Brand extraction (farlo.py lines 73-81): labeled Brand row trimmed and
upper-cased if present; else the leading `[A-Z]+` run of the product label
if nonempty; else the literal `"Brand"`. -/
def brandOf (p : Page) (product : String) : String :=
  match p.brandRow with
  | some t => strToUpper (strTrim t)
  | none =>
    let lead := product.data.takeWhile Char.isUpper
    if lead.isEmpty then "Brand" else String.mk lead

/-- Offer-count extraction (farlo.py lines 84-90): digit run of the
offers-link text (commas removed) if the link exists and has a digit,
else the literal `"1"`. -/
def offersOf (p : Page) : String :=
  match p.offersLink with
  | none => "1"
  | some txt =>
    match firstDigitRunStr (strReplace txt "," "") with
    | some d => d
    | none => "1"

/-- The A-H row written on a successful attempt (farlo.py lines 94-103). -/
def successRow (now product url : String) (p : Page) : List String :=
  [now, product, titleOf p, "₹" ++ priceValOf p, url, sellerQtyOf p,
    brandOf p product, offersOf p]

/-- The A-H fallback row written after the final failed attempt
(farlo.py lines 115-118). -/
def fallbackRow (now product url : String) : List String :=
  [now, product, "Error", "₹500", url, "Unknown – Unknown", "Brand", "0"]

/-- Behaviour of one attempt of the try-block (farlo.py lines 39-107):
either some step (navigation, a locator read, or the success-path store
write) raises before a write lands, or the page loads and the attempt
completes, writing the extracted row. -/
inductive Attempt where
  | raises
  | loads (p : Page)
deriving DecidableEq, Repr

deriving instance DecidableEq for Except

/-- Observable trace of one `scrape_and_write` call: store writes
(row index, A-H values), sleep durations, number of attempts started, and
the outcome — `.ok b` models `return b`, `.error ()` models an exception
propagating out of the call. -/
structure ScrapeResult where
  writes : List (Nat × List String)
  sleeps : List Nat
  attemptsMade : Nat
  outcome : Except Unit Bool
deriving DecidableEq, Repr

/-- Retry loop body of `scrape_and_write` (farlo.py lines 38-120), from
attempt number `attempt` with `fuel` attempts remaining.  `attempts k`
gives the behaviour of attempt `k`; `fbRaises` is true when the store
raises on the fallback write (farlo.py line 119), the one store call made
outside the try-block's protection. -/
def scrapeFrom (now : String) (idx : Nat) (product url : String)
    (attempts : Nat → Attempt) (fbRaises : Bool) :
    Nat → Nat → ScrapeResult
  | _, 0 => ⟨[], [], 0, .ok false⟩
  | attempt, fuel + 1 =>
    match attempts attempt with
    | .loads p => ⟨[(idx, successRow now product url p)], [], 1, .ok true⟩
    | .raises =>
      if attempt < RETRIES then
        let r := scrapeFrom now idx product url attempts fbRaises (attempt + 1) fuel
        ⟨r.writes, RETRY_DELAY :: r.sleeps, r.attemptsMade + 1, r.outcome⟩
      else if fbRaises then ⟨[], [], 1, .error ()⟩
      else ⟨[(idx, fallbackRow now product url)], [], 1, .ok false⟩

/-- `scrape_and_write(page, idx, product, url)` (farlo.py lines 37-120). -/
def scrapeAndWrite (now : String) (idx : Nat) (product url : String)
    (attempts : Nat → Attempt) (fbRaises : Bool) : ScrapeResult :=
  scrapeFrom now idx product url attempts fbRaises 1 RETRIES

/-- Row-skip test of the driver loop (farlo.py line 137):
`len(line) < 3 or not line[0].strip() or not line[1].strip()`. -/
def skipRow (line : List String) : Bool :=
  decide (line.length < 3) || strTrim (line.getD 0 "") == "" || strTrim (line.getD 1 "") == ""

/-- Observable trace of one run of `main`'s loop: all store writes in
order, the row indices for which `scrape_and_write` was invoked, the
returned outcome per completed call (`true` = success, `false` =
permanent failure), and whether an uncaught exception aborted the loop. -/
structure RunResult where
  writes : List (Nat × List String)
  processed : List Nat
  outcomes : List (Nat × Bool)
  aborted : Bool
deriving DecidableEq, Repr

/-- Driver loop of `main` (farlo.py lines 136-141) over the remaining rows,
`i` being the sheet row index of the head (`enumerate(data[1:], start=2)`).
`behaviour i` gives the attempt behaviours for row `i`; an `.error` outcome
propagates and aborts the loop. -/
def mainLoop (now : String) (behaviour : Nat → Nat → Attempt)
    (fbRaises : Nat → Bool) : List (List String) → Nat → RunResult
  | [], _ => ⟨[], [], [], false⟩
  | line :: rest, i =>
    if skipRow line then mainLoop now behaviour fbRaises rest (i + 1)
    else
      let r := scrapeAndWrite now i (line.getD 0 "") (line.getD 1 "")
        (behaviour i) (fbRaises i)
      match r.outcome with
      | .error _ => ⟨r.writes, [i], [], true⟩
      | .ok b =>
        let rr := mainLoop now behaviour fbRaises rest (i + 1)
        ⟨r.writes ++ rr.writes, i :: rr.processed, (i, b) :: rr.outcomes, rr.aborted⟩

/-- `main` (farlo.py lines 123-143): reads all input rows, skips the header
row, and runs the driver loop from sheet row 2. -/
def mainRun (now : String) (behaviour : Nat → Nat → Attempt)
    (fbRaises : Nat → Bool) (data : List (List String)) : RunResult :=
  mainLoop now behaviour fbRaises (data.drop 1) 2

/-- Final content of store row `i` given its prior content and the run's
write trace (later writes overwrite earlier ones). -/
def finalRow (prior : Nat → List String) (writes : List (Nat × List String))
    (i : Nat) : List String :=
  (writes.filter (fun w => w.1 = i)).foldl (fun _ w => w.2) (prior i)

/-- Modelled from the spec: §4.1 Refresh Scheduler, absent from the source
(`main` discards the interval column).  An item is `Due` iff its elapsed
wall-clock seconds since the stored timestamp are ≥ `intervalMinutes * 60`;
`NotDue` is the negation, stated here over the elapsed seconds. -/
def specNotDue (elapsedSeconds intervalMinutes : Nat) : Prop :=
  elapsedSeconds < intervalMinutes * 60

instance (a b : Nat) : Decidable (specNotDue a b) :=
  inferInstanceAs (Decidable (a < b * 60))

/-! Evaluation lemmas for the retry loop, one per terminal shape. -/

theorem scrape_first (now : String) (idx : Nat) (product url : String)
    (attempts : Nat → Attempt) (fb : Bool) (p : Page)
    (h1 : attempts 1 = .loads p) :
    scrapeAndWrite now idx product url attempts fb
      = ⟨[(idx, successRow now product url p)], [], 1, .ok true⟩ := by
  simp [scrapeAndWrite, scrapeFrom, RETRIES, RETRY_DELAY, h1]

theorem scrape_second (now : String) (idx : Nat) (product url : String)
    (attempts : Nat → Attempt) (fb : Bool) (p : Page)
    (h1 : attempts 1 = .raises) (h2 : attempts 2 = .loads p) :
    scrapeAndWrite now idx product url attempts fb
      = ⟨[(idx, successRow now product url p)], [RETRY_DELAY], 2, .ok true⟩ := by
  simp [scrapeAndWrite, scrapeFrom, RETRIES, RETRY_DELAY, h1, h2]

theorem scrape_third (now : String) (idx : Nat) (product url : String)
    (attempts : Nat → Attempt) (fb : Bool) (p : Page)
    (h1 : attempts 1 = .raises) (h2 : attempts 2 = .raises)
    (h3 : attempts 3 = .loads p) :
    scrapeAndWrite now idx product url attempts fb
      = ⟨[(idx, successRow now product url p)], [RETRY_DELAY, RETRY_DELAY], 3, .ok true⟩ := by
  simp [scrapeAndWrite, scrapeFrom, RETRIES, RETRY_DELAY, h1, h2, h3]

theorem scrape_allfail (now : String) (idx : Nat) (product url : String)
    (attempts : Nat → Attempt)
    (h1 : attempts 1 = .raises) (h2 : attempts 2 = .raises)
    (h3 : attempts 3 = .raises) :
    scrapeAndWrite now idx product url attempts false
      = ⟨[(idx, fallbackRow now product url)], [RETRY_DELAY, RETRY_DELAY], 3, .ok false⟩ := by
  simp [scrapeAndWrite, scrapeFrom, RETRIES, RETRY_DELAY, h1, h2, h3]

theorem scrape_allfail_raise (now : String) (idx : Nat) (product url : String)
    (attempts : Nat → Attempt)
    (h1 : attempts 1 = .raises) (h2 : attempts 2 = .raises)
    (h3 : attempts 3 = .raises) :
    scrapeAndWrite now idx product url attempts true
      = ⟨[], [RETRY_DELAY, RETRY_DELAY], 3, .error ()⟩ := by
  simp [scrapeAndWrite, scrapeFrom, RETRIES, RETRY_DELAY, h1, h2, h3]

/-- Every store write a `scrape_and_write` call performs targets the call's
own row index. -/
theorem scrape_writes_fst (now : String) (idx : Nat) (product url : String)
    (attempts : Nat → Attempt) (fb : Bool) :
    ∀ w ∈ (scrapeAndWrite now idx product url attempts fb).writes, w.1 = idx := by
  cases h1 : attempts 1 with
  | loads p => rw [scrape_first now idx product url attempts fb p h1]; simp
  | raises =>
    cases h2 : attempts 2 with
    | loads p => rw [scrape_second now idx product url attempts fb p h1 h2]; simp
    | raises =>
      cases h3 : attempts 3 with
      | loads p => rw [scrape_third now idx product url attempts fb p h1 h2 h3]; simp
      | raises =>
        cases fb with
        | false => rw [scrape_allfail now idx product url attempts h1 h2 h3]; simp
        | true => rw [scrape_allfail_raise now idx product url attempts h1 h2 h3]; simp

/-- When the store accepts the fallback write, `scrape_and_write` performs
exactly one write, at its own row index, and returns normally. -/
theorem scrape_single_write (now : String) (idx : Nat) (product url : String)
    (attempts : Nat → Attempt) :
    ∃ row b, scrapeAndWrite now idx product url attempts false
      = ⟨[(idx, row)], (scrapeAndWrite now idx product url attempts false).sleeps,
          (scrapeAndWrite now idx product url attempts false).attemptsMade, .ok b⟩ := by
  cases h1 : attempts 1 with
  | loads p => rw [scrape_first now idx product url attempts false p h1]; exact ⟨_, true, rfl⟩
  | raises =>
    cases h2 : attempts 2 with
    | loads p => rw [scrape_second now idx product url attempts false p h1 h2]; exact ⟨_, true, rfl⟩
    | raises =>
      cases h3 : attempts 3 with
      | loads p => rw [scrape_third now idx product url attempts false p h1 h2 h3]; exact ⟨_, true, rfl⟩
      | raises => rw [scrape_allfail now idx product url attempts h1 h2 h3]; exact ⟨_, false, rfl⟩

/-- Attempt bound and sleep trace of the retry loop: at most `RETRIES`
attempts, one `RETRY_DELAY` sleep after every attempt but the last made. -/
theorem scrape_budget (now : String) (idx : Nat) (product url : String)
    (attempts : Nat → Attempt) (fb : Bool) :
    (scrapeAndWrite now idx product url attempts fb).attemptsMade ≤ 3 ∧
    (scrapeAndWrite now idx product url attempts fb).sleeps
      = List.replicate
          ((scrapeAndWrite now idx product url attempts fb).attemptsMade - 1)
          RETRY_DELAY := by
  cases h1 : attempts 1 with
  | loads p =>
    rw [scrape_first now idx product url attempts fb p h1]
    exact ⟨Nat.le_of_sub_eq_zero rfl, rfl⟩
  | raises =>
    cases h2 : attempts 2 with
    | loads p =>
      rw [scrape_second now idx product url attempts fb p h1 h2]
      exact ⟨Nat.le_of_sub_eq_zero rfl, rfl⟩
    | raises =>
      cases h3 : attempts 3 with
      | loads p =>
        rw [scrape_third now idx product url attempts fb p h1 h2 h3]
        exact ⟨Nat.le_of_sub_eq_zero rfl, rfl⟩
      | raises =>
        cases fb with
        | false =>
          rw [scrape_allfail now idx product url attempts h1 h2 h3]
          exact ⟨Nat.le_of_sub_eq_zero rfl, rfl⟩
        | true =>
          rw [scrape_allfail_raise now idx product url attempts h1 h2 h3]
          exact ⟨Nat.le_of_sub_eq_zero rfl, rfl⟩

/-- The retry loop short-circuits: when attempt `j ≤ 3` is the first
attempt that completes, it returns `True` there, having made `j` attempts,
with the single write of the extracted row. -/
theorem scrape_short_circuit (now : String) (idx : Nat) (product url : String)
    (attempts : Nat → Attempt) (fb : Bool) :
    ∀ j p, 1 ≤ j → j ≤ 3 → attempts j = Attempt.loads p →
      (∀ k, 1 ≤ k → k < j → attempts k = Attempt.raises) →
      (scrapeAndWrite now idx product url attempts fb).outcome = Except.ok true ∧
      (scrapeAndWrite now idx product url attempts fb).attemptsMade = j ∧
      (scrapeAndWrite now idx product url attempts fb).writes
        = [(idx, successRow now product url p)] := by
  intro j p hj1 hj3 hjp hprev
  interval_cases j
  · rw [scrape_first now idx product url attempts fb p hjp]; exact ⟨rfl, rfl, rfl⟩
  · rw [scrape_second now idx product url attempts fb p (hprev 1 (by omega) (by omega)) hjp]
    exact ⟨rfl, rfl, rfl⟩
  · rw [scrape_third now idx product url attempts fb p (hprev 1 (by omega) (by omega))
      (hprev 2 (by omega) (by omega)) hjp]
    exact ⟨rfl, rfl, rfl⟩

/-- C2: for every item and extractor behaviour the retry loop makes at
most `maxAttempts = 3` sequential attempts, sleeps `delaySeconds = 5`
between consecutive attempts and never after the last attempt made (an
always-failing extractor gets exactly 3 attempts and exactly 2 sleeps),
and on the first attempt that succeeds it returns success immediately,
making no further attempts. -/
theorem C2_retry_budget (now : String) (idx : Nat) (product url : String)
    (attempts : Nat → Attempt) (fb : Bool) :
    RETRIES = 3 ∧ RETRY_DELAY = 5 ∧
    (scrapeAndWrite now idx product url attempts fb).attemptsMade ≤ 3 ∧
    (scrapeAndWrite now idx product url attempts fb).sleeps
      = List.replicate
          ((scrapeAndWrite now idx product url attempts fb).attemptsMade - 1) 5 ∧
    ((∀ k, 1 ≤ k → k ≤ 3 → attempts k = Attempt.raises) →
      (scrapeAndWrite now idx product url attempts fb).attemptsMade = 3 ∧
      (scrapeAndWrite now idx product url attempts fb).sleeps = [5, 5]) ∧
    (∀ j p, 1 ≤ j → j ≤ 3 → attempts j = Attempt.loads p →
      (∀ k, 1 ≤ k → k < j → attempts k = Attempt.raises) →
      (scrapeAndWrite now idx product url attempts fb).outcome = Except.ok true ∧
      (scrapeAndWrite now idx product url attempts fb).attemptsMade = j) := by
  refine ⟨rfl, rfl, (scrape_budget now idx product url attempts fb).1,
    (scrape_budget now idx product url attempts fb).2, ?_, ?_⟩
  · intro hall
    have h1 := hall 1 (by omega) (by omega)
    have h2 := hall 2 (by omega) (by omega)
    have h3 := hall 3 (by omega) (by omega)
    cases fb with
    | false => rw [scrape_allfail now idx product url attempts h1 h2 h3]; exact ⟨rfl, rfl⟩
    | true => rw [scrape_allfail_raise now idx product url attempts h1 h2 h3]; exact ⟨rfl, rfl⟩
  · intro j p hj1 hj3 hjp hprev
    have h := scrape_short_circuit now idx product url attempts fb j p hj1 hj3 hjp hprev
    exact ⟨h.1, h.2.1⟩

/-- Witness for C2 at an always-raising extractor: exactly 3 attempts and
exactly 2 sleeps of 5 seconds. -/
theorem C2_retry_budget_witness :
    (scrapeAndWrite "t" 2 "P" "u" (fun _ => Attempt.raises) false).attemptsMade = 3 ∧
    (scrapeAndWrite "t" 2 "P" "u" (fun _ => Attempt.raises) false).sleeps = [5, 5] :=
  (C2_retry_budget "t" 2 "P" "u" (fun _ => Attempt.raises) false).2.2.2.2.1
    (fun _ _ _ => rfl)

/-- Counterexample for C3: the fallback row the code writes carries brand
`"Brand"`, not `"BRAND"`, and its seller/quantity field uses an en dash,
not `"Unknown - Unknown"`. -/
theorem C3_counterexample :
    (scrapeAndWrite "t" 2 "P" "u" (fun _ => Attempt.raises) false).writes
      = [(2, ["t", "P", "Error", "₹500", "u", "Unknown – Unknown", "Brand", "0"])] ∧
    ¬ ["t", "P", "Error", "₹500", "u", "Unknown – Unknown", "Brand", "0"].getD 6 ""
        = "BRAND" ∧
    ¬ ["t", "P", "Error", "₹500", "u", "Unknown – Unknown", "Brand", "0"].getD 5 ""
        = "Unknown - Unknown" := by
  decide

/-- C3 as amended: when every extraction attempt fails and the store
accepts the write, the run writes to the item's row exactly the
deterministic fallback row — current timestamp, item label, title
`"Error"`, placeholder price `"₹500"`, the item's url, seller/quantity
`"Unknown – Unknown"` (en dash), brand `"Brand"`, offer count `"0"` — and
returns the permanent-failure outcome. -/
theorem C3_fallback_row (now : String) (idx : Nat) (product url : String)
    (attempts : Nat → Attempt)
    (hall : ∀ k, 1 ≤ k → k ≤ 3 → attempts k = Attempt.raises) :
    scrapeAndWrite now idx product url attempts false
      = ⟨[(idx, [now, product, "Error", "₹500", url, "Unknown – Unknown", "Brand", "0"])],
          [5, 5], 3, .ok false⟩ := by
  rw [scrape_allfail now idx product url attempts (hall 1 (by omega) (by omega))
    (hall 2 (by omega) (by omega)) (hall 3 (by omega) (by omega))]
  rfl

/-- Witness for C3 at a concrete always-failing item. -/
theorem C3_fallback_row_witness :
    scrapeAndWrite "t" 2 "P" "u" (fun _ => Attempt.raises) false
      = ⟨[(2, ["t", "P", "Error", "₹500", "u", "Unknown – Unknown", "Brand", "0"])],
          [5, 5], 3, .ok false⟩ :=
  C3_fallback_row "t" 2 "P" "u" (fun _ => Attempt.raises) (fun _ _ _ => rfl)

/-- Counterexample for C4: a page whose title element and price element
are both absent does not fail — the first attempt succeeds, writing the
fallback values `"N/A"` and `"₹500"` into the successful row, with no
retry. -/
theorem C4_counterexample :
    scrapeAndWrite "t" 2 "pen" "u"
        (fun _ => Attempt.loads ⟨none, none, none, none, [], none, none⟩) false
      = ⟨[(2, ["t", "pen", "N/A", "₹500", "u", "Unknown – Unknown", "Brand", "1"])],
          [], 1, .ok true⟩ := by
  decide

/-- C4 as amended: absence of the title element yields the fallback title
`"N/A"` and absence of the price element yields the fallback price
`"₹500"` inside a successful result; element absence raises nothing and
never enters the retry path (the attempt completes first time). -/
theorem C4_absent_field_fallbacks (now : String) (idx : Nat) (product url : String)
    (p : Page) (ht : p.titleText = none) (hp : p.priceText = none) :
    titleOf p = "N/A" ∧ priceValOf p = "500" ∧
    (successRow now product url p).getD 2 "" = "N/A" ∧
    (successRow now product url p).getD 3 "" = "₹500" ∧
    scrapeAndWrite now idx product url (fun _ => Attempt.loads p) false
      = ⟨[(idx, successRow now product url p)], [], 1, .ok true⟩ := by
  have htitle : titleOf p = "N/A" := by unfold titleOf; rw [ht]
  have hprice : priceValOf p = "500" := by
    have h5 : priceTxtOf p = "500" := by unfold priceTxtOf; rw [hp]
    unfold priceValOf; rw [h5]; decide
  refine ⟨htitle, hprice, ?_, ?_, scrape_first now idx product url _ false p rfl⟩
  · simp [successRow, htitle]
  · simp [successRow, hprice]

/-- Witness for C4 at a fully blank page. -/
theorem C4_absent_field_fallbacks_witness :
    titleOf ⟨none, none, none, none, [], none, none⟩ = "N/A" ∧
    priceValOf ⟨none, none, none, none, [], none, none⟩ = "500" ∧
    (successRow "t" "pen" "u" ⟨none, none, none, none, [], none, none⟩).getD 2 "" = "N/A" ∧
    (successRow "t" "pen" "u" ⟨none, none, none, none, [], none, none⟩).getD 3 "" = "₹500" ∧
    scrapeAndWrite "t" 2 "pen" "u"
        (fun _ => Attempt.loads ⟨none, none, none, none, [], none, none⟩) false
      = ⟨[(2, successRow "t" "pen" "u" ⟨none, none, none, none, [], none, none⟩)],
          [], 1, .ok true⟩ :=
  C4_absent_field_fallbacks "t" 2 "pen" "u" ⟨none, none, none, none, [], none, none⟩ rfl rfl

/-! Facts about `List.foldl Nat.max`, used to relate the quantity code to
"the maximum of the parsed options". -/

theorem foldl_max_init_le (l : List Nat) (a : Nat) : a ≤ l.foldl Nat.max a := by
  induction l generalizing a with
  | nil => exact Nat.le_refl a
  | cons x xs ih => exact Nat.le_trans (Nat.le_max_left a x) (ih (Nat.max a x))

theorem foldl_max_le_of_mem (l : List Nat) (a : Nat) :
    ∀ n ∈ l, n ≤ l.foldl Nat.max a := by
  induction l generalizing a with
  | nil => intro n hn; cases hn
  | cons x xs ih =>
    intro n hn
    rcases List.mem_cons.mp hn with h | h
    · subst h; exact Nat.le_trans (Nat.le_max_right a n) (foldl_max_init_le xs (Nat.max a n))
    · exact ih (Nat.max a x) n h

theorem foldl_max_mem (l : List Nat) (a : Nat) :
    l.foldl Nat.max a = a ∨ l.foldl Nat.max a ∈ l := by
  induction l generalizing a with
  | nil => left; rfl
  | cons x xs ih =>
    rcases ih (Nat.max a x) with h | h
    · have hax : Nat.max a x = a ∨ Nat.max a x = x := by
        by_cases hle : a ≤ x
        · exact Or.inr (Nat.max_eq_right hle)
        · exact Or.inl (Nat.max_eq_left (Nat.le_of_not_le hle))
      rcases hax with ha | hx
      · left; rw [List.foldl_cons, h, ha]
      · right; rw [List.foldl_cons, h, hx]; exact List.mem_cons_self x xs
    · right; exact List.mem_cons_of_mem x h

theorem foldl_max_zero_mem (l : List Nat) (hl : l ≠ []) : l.foldl Nat.max 0 ∈ l := by
  rcases foldl_max_mem l 0 with h | h
  · match l, hl with
    | x :: xs, _ =>
      have hx : x ≤ (x :: xs).foldl Nat.max 0 :=
        foldl_max_le_of_mem (x :: xs) 0 x (List.mem_cons_self x xs)
      rw [h] at hx
      have hx0 : x = 0 := Nat.le_zero.mp hx
      rw [h, ← hx0]
      exact List.mem_cons_self x xs
  · exact h

/-- The first element surviving `dropWhile P` fails `P`. -/
theorem head_dropWhile_not {α : Type} (P : α → Bool) (l : List α) :
    ∀ c, (l.dropWhile P).head? = some c → ¬ P c = true := by
  induction l with
  | nil => intro c hc; cases hc
  | cons x xs ih =>
    intro c hc
    by_cases hx : P x = true
    · rw [List.dropWhile_cons, if_pos hx] at hc
      exact ih c hc
    · rw [List.dropWhile_cons, if_neg hx] at hc
      simp only [List.head?_cons, Option.some.injEq] at hc
      subst hc; exact hx

/-- The quantity field for a nonempty parsed-option list. -/
theorem qtyOf_eq (opts : List String) (h : qtyNums opts ≠ []) :
    qtyOf opts
      = if 30 ≤ (qtyNums opts).foldl Nat.max 0 then "30+"
        else toString ((qtyNums opts).foldl Nat.max 0) := by
  rcases hq : qtyNums opts with _ | ⟨x, xs⟩
  · exact absurd hq h
  · simp [qtyOf, hq]

/-- C5: the extractor parses each quantity option (first digit run) as an
integer and takes the maximum: `"30+"` when the maximum is ≥ 30, the
maximum rendered as a string otherwise, and `"Unknown"` when no numeric
option exists; in particular options `[5, 12, 30]` give `"30+"`,
`[5, 12]` give `"12"`, and none give `"Unknown"`. -/
theorem C5_quantity :
    (qtyOf ["5", "12", "30"] = "30+" ∧ qtyOf ["5", "12"] = "12" ∧
      qtyOf [] = "Unknown") ∧
    ∀ opts : List String,
      (qtyNums opts = [] → qtyOf opts = "Unknown") ∧
      (qtyNums opts ≠ [] →
        (qtyNums opts).foldl Nat.max 0 ∈ qtyNums opts ∧
        (∀ n ∈ qtyNums opts, n ≤ (qtyNums opts).foldl Nat.max 0) ∧
        (30 ≤ (qtyNums opts).foldl Nat.max 0 → qtyOf opts = "30+") ∧
        ((qtyNums opts).foldl Nat.max 0 < 30 →
          qtyOf opts = toString ((qtyNums opts).foldl Nat.max 0))) := by
  refine ⟨⟨by decide, by decide, by decide⟩, ?_⟩
  intro opts
  constructor
  · intro h; simp [qtyOf, h]
  · intro h
    refine ⟨foldl_max_zero_mem _ h, fun n hn => foldl_max_le_of_mem _ 0 n hn, ?_, ?_⟩
    · intro h30; rw [qtyOf_eq opts h, if_pos h30]
    · intro h30; rw [qtyOf_eq opts h, if_neg (by omega)]

/-- Witness for C5 at concrete option lists. -/
theorem C5_quantity_witness :
    qtyNums ["7 units"] ≠ [] ∧ qtyOf ["7 units"] = "7" := by
  have h := (C5_quantity.2 ["7 units"]).2 (by decide)
  exact ⟨by decide, (h.2.2.2 (by decide)).trans (by decide)⟩

/-- Counterexample for C6: a page with no Brand attribute row and a label
with no leading uppercase run gets brand `"Brand"`, not the claimed
`"BRAND"`. -/
theorem C6_counterexample :
    brandOf ⟨none, none, none, none, [], none, none⟩ "iphone" = "Brand" ∧
    brandOf ⟨none, none, none, none, [], none, none⟩ "iphone" ≠ "BRAND" := by
  decide

/-- C6 as amended: the brand is the labeled Brand row trimmed and
upper-cased when present; else the maximal leading run of uppercase
characters of the item's label when nonempty; else the literal default
`"Brand"` (mixed case, not `"BRAND"`). -/
theorem C6_brand_chain (p : Page) (product : String) :
    (∀ t, p.brandRow = some t → brandOf p product = strToUpper (strTrim t)) ∧
    (p.brandRow = none →
      ∃ lead rest, product.data = lead ++ rest ∧
        (∀ c ∈ lead, c.isUpper = true) ∧
        (∀ c, rest.head? = some c → ¬ c.isUpper = true) ∧
        brandOf p product = if lead.isEmpty then "Brand" else String.mk lead) := by
  constructor
  · intro t ht; simp [brandOf, ht]
  · intro hn
    refine ⟨product.data.takeWhile Char.isUpper, product.data.dropWhile Char.isUpper,
      (List.takeWhile_append_dropWhile Char.isUpper product.data).symm,
      fun c hc => List.mem_takeWhile_imp hc,
      head_dropWhile_not Char.isUpper product.data, ?_⟩
    simp [brandOf, hn]

/-- Witness for C6: labeled Brand row present, and a page missing both
brand sources. -/
theorem C6_brand_chain_witness :
    brandOf ⟨none, none, none, none, [], some " bose ", none⟩ "x"
      = strToUpper (strTrim " bose ") ∧
    strToUpper (strTrim " bose ") = "BOSE" :=
  ⟨(C6_brand_chain ⟨none, none, none, none, [], some " bose ", none⟩ "x").1 " bose " rfl,
    by decide⟩

/-! Unfolding lemmas for the driver loop, one per branch. -/

theorem mainLoop_nil (now : String) (behaviour : Nat → Nat → Attempt)
    (fbR : Nat → Bool) (i : Nat) :
    mainLoop now behaviour fbR [] i = ⟨[], [], [], false⟩ := rfl

theorem mainLoop_cons_skip (now : String) (behaviour : Nat → Nat → Attempt)
    (fbR : Nat → Bool) (line : List String) (rest : List (List String)) (i : Nat)
    (h : skipRow line = true) :
    mainLoop now behaviour fbR (line :: rest) i
      = mainLoop now behaviour fbR rest (i + 1) := by
  simp [mainLoop, h]

theorem mainLoop_cons_err (now : String) (behaviour : Nat → Nat → Attempt)
    (fbR : Nat → Bool) (line : List String) (rest : List (List String)) (i : Nat)
    (h : skipRow line = false)
    (he : (scrapeAndWrite now i (line.getD 0 "") (line.getD 1 "")
        (behaviour i) (fbR i)).outcome = .error ()) :
    mainLoop now behaviour fbR (line :: rest) i
      = ⟨(scrapeAndWrite now i (line.getD 0 "") (line.getD 1 "")
            (behaviour i) (fbR i)).writes, [i], [], true⟩ := by
  have he' := he
  simp only [List.getD_eq_getElem?_getD] at he'
  simp [mainLoop, h, he']

theorem mainLoop_cons_ok (now : String) (behaviour : Nat → Nat → Attempt)
    (fbR : Nat → Bool) (line : List String) (rest : List (List String)) (i : Nat)
    (b : Bool) (h : skipRow line = false)
    (hb : (scrapeAndWrite now i (line.getD 0 "") (line.getD 1 "")
        (behaviour i) (fbR i)).outcome = .ok b) :
    mainLoop now behaviour fbR (line :: rest) i
      = ⟨(scrapeAndWrite now i (line.getD 0 "") (line.getD 1 "")
            (behaviour i) (fbR i)).writes
          ++ (mainLoop now behaviour fbR rest (i + 1)).writes,
          i :: (mainLoop now behaviour fbR rest (i + 1)).processed,
          (i, b) :: (mainLoop now behaviour fbR rest (i + 1)).outcomes,
          (mainLoop now behaviour fbR rest (i + 1)).aborted⟩ := by
  have hb' := hb
  simp only [List.getD_eq_getElem?_getD] at hb'
  simp [mainLoop, h, hb']

/-- With a store that accepts fallback writes, a scrape call returns
normally. -/
theorem scrape_ok_of_accepting (now : String) (idx : Nat) (product url : String)
    (attempts : Nat → Attempt) :
    ∃ b, (scrapeAndWrite now idx product url attempts false).outcome = Except.ok b := by
  obtain ⟨row, b, h⟩ := scrape_single_write now idx product url attempts
  exact ⟨b, by rw [h]⟩

/-- With a store that accepts fallback writes, a scrape call performs
exactly the one write at its own index. -/
theorem scrape_one_write_of_accepting (now : String) (idx : Nat) (product url : String)
    (attempts : Nat → Attempt) :
    ∃ row, (scrapeAndWrite now idx product url attempts false).writes = [(idx, row)] := by
  obtain ⟨row, b, h⟩ := scrape_single_write now idx product url attempts
  exact ⟨row, by rw [h]⟩

/-- Every write of the driver loop over rows `l` starting at sheet row `i`
targets an index in `[i, i + l.length)`. -/
theorem mainLoop_writes_bounds (now : String) (behaviour : Nat → Nat → Attempt)
    (fbR : Nat → Bool) :
    ∀ (l : List (List String)) (i : Nat),
      ∀ w ∈ (mainLoop now behaviour fbR l i).writes, i ≤ w.1 ∧ w.1 < i + l.length := by
  intro l
  induction l with
  | nil => intro i w hw; rw [mainLoop_nil] at hw; cases hw
  | cons line rest ih =>
    intro i w hw
    cases hline : skipRow line with
    | true =>
      rw [mainLoop_cons_skip now behaviour fbR line rest i hline] at hw
      have h := ih (i + 1) w hw
      exact ⟨by omega, by simp only [List.length_cons]; omega⟩
    | false =>
      rcases houtcome : (scrapeAndWrite now i (line.getD 0 "") (line.getD 1 "")
          (behaviour i) (fbR i)).outcome with u | b
      · cases u
        rw [mainLoop_cons_err now behaviour fbR line rest i hline houtcome] at hw
        dsimp only at hw
        have h := scrape_writes_fst now i (line.getD 0 "") (line.getD 1 "")
          (behaviour i) (fbR i) w hw
        exact ⟨by omega, by simp only [List.length_cons]; omega⟩
      · rw [mainLoop_cons_ok now behaviour fbR line rest i b hline houtcome] at hw
        dsimp only at hw
        rcases List.mem_append.mp hw with h | h
        · have h := scrape_writes_fst now i (line.getD 0 "") (line.getD 1 "")
            (behaviour i) (fbR i) w h
          exact ⟨by omega, by simp only [List.length_cons]; omega⟩
        · have h := ih (i + 1) w h
          exact ⟨by omega, by simp only [List.length_cons]; omega⟩

/-- With a store accepting all fallback writes, the driver loop never
aborts. -/
theorem mainLoop_no_abort (now : String) (behaviour : Nat → Nat → Attempt)
    (fbR : Nat → Bool) (hfb : ∀ k, fbR k = false) :
    ∀ (l : List (List String)) (i : Nat),
      (mainLoop now behaviour fbR l i).aborted = false := by
  intro l
  induction l with
  | nil => intro i; rfl
  | cons line rest ih =>
    intro i
    cases hline : skipRow line with
    | true => rw [mainLoop_cons_skip now behaviour fbR line rest i hline]; exact ih (i + 1)
    | false =>
      obtain ⟨b, hb⟩ := scrape_ok_of_accepting now i (line.getD 0 "") (line.getD 1 "")
        (behaviour i)
      have hb' : (scrapeAndWrite now i (line.getD 0 "") (line.getD 1 "")
          (behaviour i) (fbR i)).outcome = Except.ok b := by rw [hfb i]; exact hb
      rw [mainLoop_cons_ok now behaviour fbR line rest i b hline hb']
      exact ih (i + 1)

/-- With a store accepting all fallback writes, the driver loop invokes
the scraper on every well-formed row. -/
theorem mainLoop_processes (now : String) (behaviour : Nat → Nat → Attempt)
    (fbR : Nat → Bool) (hfb : ∀ k, fbR k = false) :
    ∀ (l : List (List String)) (i j : Nat), j < l.length →
      skipRow (l.getD j []) = false →
      (i + j) ∈ (mainLoop now behaviour fbR l i).processed := by
  intro l
  induction l with
  | nil => intro i j hj _; simp at hj
  | cons line rest ih =>
    intro i j hj hwf
    cases j with
    | zero =>
      have hline : skipRow line = false := by simpa using hwf
      obtain ⟨b, hb⟩ := scrape_ok_of_accepting now i (line.getD 0 "") (line.getD 1 "")
        (behaviour i)
      have hb' : (scrapeAndWrite now i (line.getD 0 "") (line.getD 1 "")
          (behaviour i) (fbR i)).outcome = Except.ok b := by rw [hfb i]; exact hb
      rw [mainLoop_cons_ok now behaviour fbR line rest i b hline hb']
      exact List.mem_cons_self i _
    | succ j' =>
      have hj' : j' < rest.length := by simpa using hj
      have hwf' : skipRow (rest.getD j' []) = false := by simpa using hwf
      have h := ih (i + 1) j' hj' hwf'
      rw [show i + 1 + j' = i + (j' + 1) from by omega] at h
      cases hline : skipRow line with
      | true => rw [mainLoop_cons_skip now behaviour fbR line rest i hline]; exact h
      | false =>
        obtain ⟨b, hb⟩ := scrape_ok_of_accepting now i (line.getD 0 "") (line.getD 1 "")
          (behaviour i)
        have hb' : (scrapeAndWrite now i (line.getD 0 "") (line.getD 1 "")
            (behaviour i) (fbR i)).outcome = Except.ok b := by rw [hfb i]; exact hb
        rw [mainLoop_cons_ok now behaviour fbR line rest i b hline hb']
        exact List.mem_cons_of_mem i h

/-- With a store accepting all fallback writes, each well-formed row at
position `j` receives exactly one write, at row index `i + j`. -/
theorem mainLoop_write_count (now : String) (behaviour : Nat → Nat → Attempt)
    (fbR : Nat → Bool) (hfb : ∀ k, fbR k = false) :
    ∀ (l : List (List String)) (i j : Nat), j < l.length →
      skipRow (l.getD j []) = false →
      ((mainLoop now behaviour fbR l i).writes.filter
        (fun w => w.1 == i + j)).length = 1 := by
  intro l
  induction l with
  | nil => intro i j hj _; simp at hj
  | cons line rest ih =>
    intro i j hj hwf
    cases j with
    | zero =>
      have hline : skipRow line = false := by simpa using hwf
      obtain ⟨b, hb⟩ := scrape_ok_of_accepting now i (line.getD 0 "") (line.getD 1 "")
        (behaviour i)
      have hb' : (scrapeAndWrite now i (line.getD 0 "") (line.getD 1 "")
          (behaviour i) (fbR i)).outcome = Except.ok b := by rw [hfb i]; exact hb
      obtain ⟨row, hrow⟩ := scrape_one_write_of_accepting now i (line.getD 0 "")
        (line.getD 1 "") (behaviour i)
      have hrow' : (scrapeAndWrite now i (line.getD 0 "") (line.getD 1 "")
          (behaviour i) (fbR i)).writes = [(i, row)] := by rw [hfb i]; exact hrow
      rw [mainLoop_cons_ok now behaviour fbR line rest i b hline hb']
      dsimp only
      rw [List.filter_append, List.length_append, hrow']
      have h1 : (([(i, row)] : List (Nat × List String)).filter
          (fun w => w.1 == i + 0)).length = 1 := by simp
      have h2 : ((mainLoop now behaviour fbR rest (i + 1)).writes.filter
          (fun w => w.1 == i + 0)).length = 0 := by
        rw [List.length_eq_zero, List.filter_eq_nil_iff]
        intro w hw
        have hbnd := mainLoop_writes_bounds now behaviour fbR rest (i + 1) w hw
        simp only [beq_iff_eq]
        omega
      rw [h1, h2]
    | succ j' =>
      have hj' : j' < rest.length := by simpa using hj
      have hwf' : skipRow (rest.getD j' []) = false := by simpa using hwf
      have h := ih (i + 1) j' hj' hwf'
      rw [show i + 1 + j' = i + (j' + 1) from by omega] at h
      cases hline : skipRow line with
      | true => rw [mainLoop_cons_skip now behaviour fbR line rest i hline]; exact h
      | false =>
        obtain ⟨b, hb⟩ := scrape_ok_of_accepting now i (line.getD 0 "") (line.getD 1 "")
          (behaviour i)
        have hb' : (scrapeAndWrite now i (line.getD 0 "") (line.getD 1 "")
            (behaviour i) (fbR i)).outcome = Except.ok b := by rw [hfb i]; exact hb
        obtain ⟨row, hrow⟩ := scrape_one_write_of_accepting now i (line.getD 0 "")
          (line.getD 1 "") (behaviour i)
        have hrow' : (scrapeAndWrite now i (line.getD 0 "") (line.getD 1 "")
            (behaviour i) (fbR i)).writes = [(i, row)] := by rw [hfb i]; exact hrow
        rw [mainLoop_cons_ok now behaviour fbR line rest i b hline hb']
        dsimp only
        rw [List.filter_append, List.length_append, hrow']
        have h1 : (([(i, row)] : List (Nat × List String)).filter
            (fun w => w.1 == i + (j' + 1))).length = 0 := by
          rw [List.length_eq_zero, List.filter_eq_nil_iff]
          intro w hw
          rcases List.mem_singleton.mp hw with rfl
          simp only [beq_iff_eq]
          omega
        rw [h1, h]

/-- Any row index appearing in the driver loop's trace — processed list,
write trace, or outcome list — is `i + j` for a well-formed row at
position `j`. -/
theorem mainLoop_origin (now : String) (behaviour : Nat → Nat → Attempt)
    (fbR : Nat → Bool) :
    ∀ (l : List (List String)) (i k : Nat),
      (k ∈ (mainLoop now behaviour fbR l i).processed ∨
        (∃ row, (k, row) ∈ (mainLoop now behaviour fbR l i).writes) ∨
        (∃ b, (k, b) ∈ (mainLoop now behaviour fbR l i).outcomes)) →
      ∃ j, j < l.length ∧ k = i + j ∧ skipRow (l.getD j []) = false := by
  intro l
  induction l with
  | nil =>
    intro i k hk
    rw [mainLoop_nil] at hk
    rcases hk with h | ⟨row, h⟩ | ⟨b, h⟩ <;> cases h
  | cons line rest ih =>
    intro i k hk
    cases hline : skipRow line with
    | true =>
      rw [mainLoop_cons_skip now behaviour fbR line rest i hline] at hk
      obtain ⟨j, hj, hke, hwf⟩ := ih (i + 1) k hk
      exact ⟨j + 1, by simp only [List.length_cons]; omega, by omega,
        by simpa using hwf⟩
    | false =>
      rcases houtcome : (scrapeAndWrite now i (line.getD 0 "") (line.getD 1 "")
          (behaviour i) (fbR i)).outcome with u | b
      · cases u
        rw [mainLoop_cons_err now behaviour fbR line rest i hline houtcome] at hk
        dsimp only at hk
        rcases hk with h | ⟨row, h⟩ | ⟨b, h⟩
        · have hk : k = i := List.mem_singleton.mp h
          exact ⟨0, by simp, by omega, by simpa using hline⟩
        · have hk : k = i := scrape_writes_fst now i (line.getD 0 "") (line.getD 1 "")
            (behaviour i) (fbR i) (k, row) h
          exact ⟨0, by simp, by omega, by simpa using hline⟩
        · cases h
      · rw [mainLoop_cons_ok now behaviour fbR line rest i b hline houtcome] at hk
        dsimp only at hk
        have tail : (k ∈ (mainLoop now behaviour fbR rest (i + 1)).processed ∨
            (∃ row, (k, row) ∈ (mainLoop now behaviour fbR rest (i + 1)).writes) ∨
            (∃ bb, (k, bb) ∈ (mainLoop now behaviour fbR rest (i + 1)).outcomes)) →
            ∃ j, j < (line :: rest).length ∧ k = i + j ∧
              skipRow ((line :: rest).getD j []) = false := by
          intro hk'
          obtain ⟨j, hj, hke, hwf⟩ := ih (i + 1) k hk'
          exact ⟨j + 1, by simp only [List.length_cons]; omega, by omega,
            by simpa using hwf⟩
        have head : k = i →
            ∃ j, j < (line :: rest).length ∧ k = i + j ∧
              skipRow ((line :: rest).getD j []) = false := by
          intro hk'
          exact ⟨0, by simp, by omega, by simpa using hline⟩
        rcases hk with h | ⟨row, h⟩ | ⟨bb, h⟩
        · rcases List.mem_cons.mp h with h' | h'
          · exact head h'
          · exact tail (Or.inl h')
        · rcases List.mem_append.mp h with h' | h'
          · exact head (scrape_writes_fst now i (line.getD 0 "") (line.getD 1 "")
              (behaviour i) (fbR i) (k, row) h')
          · exact tail (Or.inr (Or.inl ⟨row, h'⟩))
        · rcases List.mem_cons.mp h with h' | h'
          · exact head (congrArg Prod.fst h')
          · exact tail (Or.inr (Or.inr ⟨bb, h'⟩))

/-- Counterexample for C1: a concrete NotDue item (stored timestamp 10
seconds old against a 60-minute interval) is scraped and written anyway —
the run performs a write at its row and the row does not stay unchanged,
because `main` consults no scheduler. -/
theorem C1_counterexample :
    specNotDue 10 60 ∧
    (mainRun "2026-01-01 00:00:10" (fun _ _ => Attempt.raises) (fun _ => false)
        [["Product", "URL", "Interval"], ["X", "u", "60"]]).writes
      = [(2, ["2026-01-01 00:00:10", "X", "Error", "₹500", "u",
              "Unknown – Unknown", "Brand", "0"])] ∧
    finalRow
        (fun _ => ["2026-01-01 00:00:00", "X", "Widget", "₹100", "u", "S – 1", "B", "1"])
        (mainRun "2026-01-01 00:00:10" (fun _ _ => Attempt.raises) (fun _ => false)
          [["Product", "URL", "Interval"], ["X", "u", "60"]]).writes 2
      ≠ ["2026-01-01 00:00:00", "X", "Widget", "₹100", "u", "S – 1", "B", "1"] := by
  refine ⟨by decide, by decide, by decide⟩

/-- C1 as amended: the driver performs no schedule check at all — for any
elapsed time and interval, including every NotDue combination, each
well-formed input row is scraped and receives a store write at its fixed
row index on every run; NotDue items are not skipped and their rows are
overwritten. -/
theorem C1_no_schedule_gate (now : String) (behaviour : Nat → Nat → Attempt)
    (data : List (List String)) (j elapsedSeconds intervalMinutes : Nat)
    (hnd : specNotDue elapsedSeconds intervalMinutes)
    (hj : j < (data.drop 1).length)
    (hwf : skipRow ((data.drop 1).getD j []) = false) :
    ∃ row, (j + 2, row) ∈ (mainRun now behaviour (fun _ => false) data).writes := by
  have h := mainLoop_write_count now behaviour (fun _ => false) (fun _ => rfl)
    (data.drop 1) 2 j hj hwf
  obtain ⟨w, hw⟩ := List.length_eq_one.mp h
  have hwmem : w ∈ (mainLoop now behaviour (fun _ => false) (data.drop 1) 2).writes.filter
      (fun w => w.1 == 2 + j) := by rw [hw]; exact List.mem_singleton_self w
  have hmem := List.mem_of_mem_filter hwmem
  have hfst : w.1 = 2 + j := by simpa using List.of_mem_filter hwmem
  refine ⟨w.2, ?_⟩
  have he : ((j + 2 : Nat), w.2) = w := by
    rw [← Prod.mk.eta (p := w), Prod.mk.injEq]
    exact ⟨by omega, rfl⟩
  rw [he]
  exact hmem

/-- Witness for C1 at a concrete run and a concrete NotDue pair. -/
theorem C1_no_schedule_gate_witness :
    ∃ row, ((0 : Nat) + 2, row) ∈ (mainRun "t" (fun _ _ => Attempt.raises) (fun _ => false)
      [["h", "h", "h"], ["P", "u", "60"]]).writes :=
  C1_no_schedule_gate "t" (fun _ _ => Attempt.raises)
    [["h", "h", "h"], ["P", "u", "60"]] 0 10 60 (by decide) (by decide) (by decide)

/-- C7: per processed item, the retry loop performs exactly one store
write (failed intermediate attempts write nothing), and in a run with an
accepting store each well-formed row at position `j` receives exactly one
write, at its fixed sheet row `j + 2` (1-based ordinal offset by the
header row). -/
theorem C7_single_write :
    (∀ (now : String) (idx : Nat) (product url : String) (attempts : Nat → Attempt),
      ∃ row, (scrapeAndWrite now idx product url attempts false).writes = [(idx, row)]) ∧
    ∀ (now : String) (behaviour : Nat → Nat → Attempt) (fbR : Nat → Bool)
      (data : List (List String)) (j : Nat), (∀ k, fbR k = false) →
      j < (data.drop 1).length → skipRow ((data.drop 1).getD j []) = false →
      ((mainRun now behaviour fbR data).writes.filter
        (fun w => w.1 == j + 2)).length = 1 := by
  constructor
  · intro now idx product url attempts
    exact scrape_one_write_of_accepting now idx product url attempts
  · intro now behaviour fbR data j hfb hj hwf
    have h := mainLoop_write_count now behaviour fbR hfb (data.drop 1) 2 j hj hwf
    rw [show 2 + j = j + 2 from by omega] at h
    exact h

/-- Witness for C7: a concrete two-row input whose single well-formed row
gets exactly one write. -/
theorem C7_single_write_witness :
    ((mainRun "t" (fun _ _ => Attempt.raises) (fun _ => false)
        [["h", "h", "h"], ["P", "u", "5"]]).writes.filter
      (fun w => w.1 == 0 + 2)).length = 1 :=
  C7_single_write.2 "t" (fun _ _ => Attempt.raises) (fun _ => false)
    [["h", "h", "h"], ["P", "u", "5"]] 0 (fun _ => rfl) (by decide) (by decide)

/-- Counterexample for C8: when item at sheet row 2 exhausts its attempts
and the store raises on its fallback write, the exception propagates and
aborts the run — the following well-formed item (sheet row 3) is never
processed and nothing more happens. -/
theorem C8_counterexample :
    (mainRun "t" (fun _ _ => Attempt.raises) (fun i => i == 2)
        [["h", "h", "h"], ["P1", "u1", "5"], ["P2", "u2", "5"]])
      = ⟨[], [2], [], true⟩ ∧
    skipRow ["P2", "u2", "5"] = false := by
  refine ⟨by decide, by decide⟩

/-- C8 as amended: exceptions raised inside an item's extraction attempts
(navigation, parsing, or the success-path store write) are caught per
attempt and never abort the run; only an exception from the fallback store
write after the final failed attempt propagates.  When the store accepts
every fallback write, the run never aborts and every well-formed row is
processed, whatever each item's attempts do. -/
theorem C8_isolation (now : String) (behaviour : Nat → Nat → Attempt)
    (fbR : Nat → Bool) (data : List (List String)) (hfb : ∀ k, fbR k = false) :
    (mainRun now behaviour fbR data).aborted = false ∧
    ∀ j, j < (data.drop 1).length → skipRow ((data.drop 1).getD j []) = false →
      (j + 2) ∈ (mainRun now behaviour fbR data).processed := by
  refine ⟨mainLoop_no_abort now behaviour fbR hfb (data.drop 1) 2, ?_⟩
  intro j hj hwf
  have h := mainLoop_processes now behaviour fbR hfb (data.drop 1) 2 j hj hwf
  rw [show 2 + j = j + 2 from by omega] at h
  exact h

/-- Witness for C8: a run over one failing and one succeeding item with an
accepting store completes without aborting and processes both rows. -/
theorem C8_isolation_witness :
    (mainRun "t" (fun i _ => if i == 2 then Attempt.raises
        else Attempt.loads ⟨none, none, none, none, [], none, none⟩) (fun _ => false)
      [["h", "h", "h"], ["P1", "u1", "5"], ["P2", "u2", "5"]]).aborted = false ∧
    ((0 : Nat) + 2) ∈ (mainRun "t" (fun i _ => if i == 2 then Attempt.raises
        else Attempt.loads ⟨none, none, none, none, [], none, none⟩) (fun _ => false)
      [["h", "h", "h"], ["P1", "u1", "5"], ["P2", "u2", "5"]]).processed :=
  ⟨(C8_isolation "t" _ _ _ (fun _ => rfl)).1,
    (C8_isolation "t" (fun i _ => if i == 2 then Attempt.raises
        else Attempt.loads ⟨none, none, none, none, [], none, none⟩) (fun _ => false)
      [["h", "h", "h"], ["P1", "u1", "5"], ["P2", "u2", "5"]]
      (fun _ => rfl)).2 0 (by decide) (by decide)⟩

/-- C9: an input row whose label or URL cell is blank is skipped entirely:
the scraper is never invoked for its row index, no store write targets it,
and it contributes no outcome (so it is not counted as a failure). -/
theorem C9_blank_row_skipped (now : String) (behaviour : Nat → Nat → Attempt)
    (fbR : Nat → Bool) (data : List (List String)) (j : Nat)
    (hj : j < (data.drop 1).length)
    (hblank : strTrim (((data.drop 1).getD j []).getD 0 "") = "" ∨
      strTrim (((data.drop 1).getD j []).getD 1 "") = "") :
    (j + 2) ∉ (mainRun now behaviour fbR data).processed ∧
    (∀ w ∈ (mainRun now behaviour fbR data).writes, w.1 ≠ j + 2) ∧
    (∀ o ∈ (mainRun now behaviour fbR data).outcomes, o.1 ≠ j + 2) := by
  have hskip : skipRow ((data.drop 1).getD j []) = true := by
    unfold skipRow
    rcases hblank with h | h <;> rw [h] <;> simp
  have contra : ∀ k : Nat, k = j + 2 →
      (k ∈ (mainRun now behaviour fbR data).processed ∨
        (∃ row, (k, row) ∈ (mainRun now behaviour fbR data).writes) ∨
        (∃ b, (k, b) ∈ (mainRun now behaviour fbR data).outcomes)) → False := by
    intro k hk hmem
    obtain ⟨j', hj', he, hwf⟩ := mainLoop_origin now behaviour fbR (data.drop 1) 2 k hmem
    have hjj : j' = j := by omega
    rw [← hjj] at hskip
    rw [hwf] at hskip
    cases hskip
  refine ⟨fun h => contra _ rfl (Or.inl h), ?_, ?_⟩
  · intro w hw heq
    refine contra w.1 heq (Or.inr (Or.inl ⟨w.2, ?_⟩))
    rw [Prod.mk.eta]
    exact hw
  · intro o ho heq
    refine contra o.1 heq (Or.inr (Or.inr ⟨o.2, ?_⟩))
    rw [Prod.mk.eta]
    exact ho

/-- Witness for C9: a concrete row with a blank label is neither processed
nor written. -/
theorem C9_blank_row_skipped_witness :
    ((0 : Nat) + 2) ∉ (mainRun "t" (fun _ _ => Attempt.raises) (fun _ => false)
      [["h", "h", "h"], ["", "u", "5"]]).processed :=
  (C9_blank_row_skipped "t" (fun _ _ => Attempt.raises) (fun _ => false)
    [["h", "h", "h"], ["", "u", "5"]] 0 (by decide) (Or.inl (by decide))).1

/-- C10: an input row with fewer than three columns is skipped without
processing or writing, even when its label and URL cells are present and
non-blank. -/
theorem C10_short_row_skipped (now : String) (behaviour : Nat → Nat → Attempt)
    (fbR : Nat → Bool) (data : List (List String)) (j : Nat)
    (hj : j < (data.drop 1).length)
    (hshort : ((data.drop 1).getD j []).length < 3) :
    (j + 2) ∉ (mainRun now behaviour fbR data).processed ∧
    (∀ w ∈ (mainRun now behaviour fbR data).writes, w.1 ≠ j + 2) ∧
    (∀ o ∈ (mainRun now behaviour fbR data).outcomes, o.1 ≠ j + 2) := by
  have hskip : skipRow ((data.drop 1).getD j []) = true := by
    unfold skipRow
    rw [decide_eq_true hshort]
    rfl
  have contra : ∀ k : Nat, k = j + 2 →
      (k ∈ (mainRun now behaviour fbR data).processed ∨
        (∃ row, (k, row) ∈ (mainRun now behaviour fbR data).writes) ∨
        (∃ b, (k, b) ∈ (mainRun now behaviour fbR data).outcomes)) → False := by
    intro k hk hmem
    obtain ⟨j', hj', he, hwf⟩ := mainLoop_origin now behaviour fbR (data.drop 1) 2 k hmem
    have hjj : j' = j := by omega
    rw [← hjj] at hskip
    rw [hwf] at hskip
    cases hskip
  refine ⟨fun h => contra _ rfl (Or.inl h), ?_, ?_⟩
  · intro w hw heq
    refine contra w.1 heq (Or.inr (Or.inl ⟨w.2, ?_⟩))
    rw [Prod.mk.eta]
    exact hw
  · intro o ho heq
    refine contra o.1 heq (Or.inr (Or.inr ⟨o.2, ?_⟩))
    rw [Prod.mk.eta]
    exact ho

/-- Witness for C10: a two-column row with non-blank label and URL cells
is still skipped. -/
theorem C10_short_row_skipped_witness :
    strTrim "A" ≠ "" ∧ strTrim "http" ≠ "" ∧
    ((0 : Nat) + 2) ∉ (mainRun "t" (fun _ _ => Attempt.raises) (fun _ => false)
      [["h", "h", "h"], ["A", "http"]]).processed :=
  ⟨by decide, by decide,
    (C10_short_row_skipped "t" (fun _ _ => Attempt.raises) (fun _ => false)
      [["h", "h", "h"], ["A", "http"]] 0 (by decide) (by decide)).1⟩

end Farlo
